import Mathlib

/-!
Shallow embedding of the Go package som (Self-Organizing Map):
src/som/som.go and src/som/dataset.go.

Modelling conventions:
* float64 values of the source are modelled by the rationals ℚ, keeping every
  definition executable; the pluggable DistanceFunc, RestraintFunc and
  InfluenceFunc policies become plain function fields.
* Go panics are modelled by Option/Except (none and Except.error stand for a
  panic or a returned error value).
* Randomness (rand.Intn in findBMU, rand.Perm in RandSelector) is modelled by
  explicit oracle arguments: a natural number index for Intn and a supplied
  list of permutations for Perm.
* Go slices alias: Selector.Next returns the slice ds.Vectors[idx] itself, and
  ScalingDataAdapter.Adapt writes through its argument slice in place (its doc
  comment says the original vector is modified), while NoOpAdapter performs no
  write.  This run-time fact of each adapter of the repository is recorded in
  the field AdapterM.inPlace, and the dataset contents are threaded through
  the learning loop so that in-place adaptation of a selected vector updates
  the caller-visible dataset, exactly as in Go.
-/

abbrev DataVector := List ℚ

structure DataSet where
  Vectors : List DataVector
deriving DecidableEq

def DataSet.Len (ds : DataSet) : Nat := ds.Vectors.length

/-- Go DataSet.Width returns len(Vectors[0]) and panics on an empty data set;
the panic is modelled by none. -/
def DataSet.WidthP (ds : DataSet) : Option Nat :=
  match ds.Vectors with
  | [] => none
  | v :: _ => some v.length

def dimensionMismatchMsg : String := "data set must contain vectors of the same length"

def ErrNoDataLeft : String := "no data left"

/-- Go DataSet.Add: panics (modelled by Except.error) when the data set is
non-empty and the new vector has a different length, otherwise appends.
The Go condition reads len(ds.Vectors) != 0 && ds.Width() != len(vector);
on a non-empty data set Width() is the length of the first vector. -/
def DataSet.Add (ds : DataSet) (v : DataVector) : Except String DataSet :=
  if ds.Vectors.length ≠ 0 ∧ (ds.Vectors.headD []).length ≠ v.length then
    Except.error dimensionMismatchMsg
  else
    Except.ok (DataSet.mk (ds.Vectors ++ [v]))

/-- Go DataSet.Reduce: when newLen < Len, keeps for each i < newLen the vector
at index (left+right)>>1 where left = int(float64(i)*step),
right = int(float64(i+1)*step) and step = float64(Len)/float64(newLen).
The float64 arithmetic is modelled exactly over ℚ; int() truncation of these
non-negative values is Nat.floor. -/
def DataSet.Reduce (ds : DataSet) (newLen : Nat) : DataSet :=
  if newLen < ds.Len then
    DataSet.mk ((List.range newLen).map fun (i : Nat) =>
      ds.Vectors.getD
        ((Nat.floor ((i : ℚ) * ((ds.Len : ℚ) / (newLen : ℚ)))
            + Nat.floor (((i : ℚ) + 1) * ((ds.Len : ℚ) / (newLen : ℚ)))) >>> 1) [])
  else ds

/-- Uniform-width invariant of a data set: every vector has the width of the
first one (vacuously true for the empty data set). -/
def uniformWidth (ds : DataSet) : Prop :=
  ∀ v ∈ ds.Vectors, v.length = (ds.Vectors.headD []).length

structure Neuron where
  Weights : List ℚ
  Distance : ℚ
  X : Nat
  Y : Nat
deriving DecidableEq

def neuron0 : Neuron := { Weights := [], Distance := 0, X := 0, Y := 0 }

/-- Indexed map, the translation of a Go for-loop with index i over a slice:
idxMap f i [a, b, ...] = [f i a, f (i+1) b, ...]. -/
def idxMap {α β : Type _} (f : Nat → α → β) : Nat → List α → List β
  | _, [] => []
  | i, a :: l => f i a :: idxMap f (i + 1) l

/-- A DataAdapter of the repository: its pure input/output behaviour together
with whether the Go implementation writes the adapted values through the
argument slice (in place). -/
structure AdapterM where
  adapt : DataVector → DataVector
  inPlace : Bool

/-- Go NoOpAdapter returns the input vector without any modification. -/
def NoOpAdapter : AdapterM := { adapt := fun v => v, inPlace := false }

/-- Go ScalingDataAdapter: vector[i] -= Min[i]; vector[i] /= MaxMinDiff[i],
written back through the argument slice (the source notes that the original
vector is modified). -/
def ScalingDataAdapter (mins maxMinDiff : List ℚ) : AdapterM :=
  { adapt := fun v => idxMap (fun i x => (x - mins.getD i 0) / maxMinDiff.getD i 0) 0 v,
    inPlace := true }

/-- Go ManhattanDistanceFunc: sum of coordinatewise absolute differences
(for equal-length vectors, as required by the contract). -/
def manhattanDist (x y : DataVector) : ℚ :=
  ((x.zip y).map fun p => |p.1 - p.2|).sum

/-- Go NoRestraintFunc: always 1. -/
def NoRestraint : Nat → Nat → ℚ := fun _ _ => 1

/-- Go BMUOnlyInfluencedFunc: 1 at the BMU position, 0 elsewhere. -/
def BMUOnlyInfluence : Neuron → Nat → Nat → Nat → Nat → ℚ :=
  fun bmu _ _ i j => if bmu.X = i ∧ bmu.Y = j then 1 else 0

structure SOM where
  Neurons : List (List Neuron)
  Restraint : Nat → Nat → ℚ
  Influence : Neuron → Nat → Nat → Nat → Nat → ℚ
  Distance : DataVector → DataVector → ℚ
  InDataAdapter : AdapterM

/-- Go SOM.computeDistance: sets every neuron working Distance to the distance
between the given vector and the neuron weights. -/
def computeDistance (distf : DataVector → DataVector → ℚ) (v : DataVector)
    (grid : List (List Neuron)) : List (List Neuron) :=
  grid.map fun row => row.map fun n => { n with Distance := distf v n.Weights }

/-- Go SOM.fixWeights: for every neuron at (i, j) and every weight index k,
Weights[k] += cof * (input[k] - Weights[k]) with
cof = Restraint(t, T) * Influence(bmu, t, T, i, j). -/
def fixWeights (R : Nat → Nat → ℚ) (I : Neuron → Nat → Nat → Nat → Nat → ℚ)
    (t T : Nat) (bmu : Neuron) (input : DataVector)
    (grid : List (List Neuron)) : List (List Neuron) :=
  idxMap (fun i row =>
    idxMap (fun j n =>
      { n with Weights :=
          idxMap (fun k w => w + R t T * I bmu t T i j * (input.getD k 0 - w)) 0 n.Weights })
      0 row) 0 grid

def listMin (m : ℚ) (l : List ℚ) : ℚ := l.foldl min m

/-- One step of the first pass of Go SOM.findBMU over the accumulator
(bmu, minDistance, candidatesCount). -/
def bmuStep (acc : Neuron × ℚ × Nat) (c : Neuron) : Neuron × ℚ × Nat :=
  if acc.2.1 > c.Distance then (c, c.Distance, 1)
  else if acc.2.1 = c.Distance then (acc.1, acc.2.1, acc.2.2 + 1)
  else acc

/-- Go SOM.findBMU.  Starts from Neurons[0][0] (panic on a grid without a
first neuron is modelled by none), scans all neurons in row-major order, and
when candidatesCount is not 1 collects all neurons tying the minimum and
returns the one selected by rand.Intn, modelled by the oracle index r taken
modulo the number of candidates. -/
def findBMU (grid : List (List Neuron)) (r : Nat) : Option Neuron :=
  match grid with
  | (n00 :: row0) :: rows =>
    let all := ((n00 :: row0) :: rows).flatten
    let acc := all.foldl bmuStep (n00, n00.Distance, 1)
    if acc.2.2 = 1 then some acc.1
    else
      let cands := all.filter fun n => decide (acc.2.1 = n.Distance)
      some (cands.getD (r % cands.length) n00)
  | _ => none

/-- Go SOM.Test: adapts the vector, recomputes every neuron Distance, returns
the BMU.  The second component is the content of the caller slice after the
call: the adapted vector when the adapter writes in place, the original
otherwise. -/
def SOM.Test (som : SOM) (v : DataVector) (r : Nat) :
    SOM × DataVector × Option Neuron :=
  let v2 := som.InDataAdapter.adapt v
  let vc := if som.InDataAdapter.inPlace then v2 else v
  let ns := computeDistance som.Distance v2 som.Neurons
  ({ som with Neurons := ns }, vc, findBMU ns r)

/-- Go SOM.ComputeDistanceMatrix: adapts the vector and fills a fresh matrix
with the distances; the receiver is returned unchanged since the Go body
assigns only to the local matrix, never through the receiver.  As in Test,
the second component is the caller slice content after the call. -/
def SOM.ComputeDistanceMatrix (som : SOM) (v : DataVector) :
    SOM × DataVector × List (List ℚ) :=
  let v2 := som.InDataAdapter.adapt v
  let vc := if som.InDataAdapter.inPlace then v2 else v
  (som, vc, som.Neurons.map fun row => row.map fun n => som.Distance v2 n.Weights)

structure SeqSel where
  idx : Nat

/-- Go SequentialSelector.Next: returns Vectors[idx] (an alias into the data
set) and advances, or ErrNoDataLeft once idx >= Len. -/
def seqNext (ds : DataSet) (s : SeqSel) : Except String (DataVector × SeqSel) :=
  if ds.Len ≤ s.idx then Except.error ErrNoDataLeft
  else Except.ok (ds.Vectors.getD s.idx [], SeqSel.mk (s.idx + 1))

/-- State threaded through SOM.Learn: the engine, the caller-visible dataset
memory (selected vectors alias into it), and the sequential selector index. -/
structure LState where
  som : SOM
  ds : DataSet
  sel : Nat

/-- The body of one Go Learn iteration after a vector was obtained from the
selector: adapt (writing back through the alias when the adapter is in
place), compute distances, find the BMU (oracle r for the tie break), fix the
weights.  none models the findBMU panic on a grid without a first neuron. -/
def learnStep (t T r : Nat) (s : LState) (v : DataVector) (selIdx : Nat) :
    Option LState :=
  let v2 := s.som.InDataAdapter.adapt v
  let ds2 := if s.som.InDataAdapter.inPlace
             then DataSet.mk (s.ds.Vectors.set s.sel v2) else s.ds
  let ns := computeDistance s.som.Distance v2 s.som.Neurons
  match findBMU ns r with
  | none => none
  | some bmu =>
    some (LState.mk
      { s.som with Neurons := fixWeights s.som.Restraint s.som.Influence t T bmu v2 ns }
      ds2 selIdx)

/-- The Go Learn loop (default SequentialSelector), with fuel n = remaining
iterations and t the current iteration; breaks without error when the
selector signals ErrNoDataLeft.  The ProgressMonitor is the no-op default. -/
def learnLoop (T : Nat) (rs : Nat → Nat) : Nat → Nat → LState → Option LState
  | 0, _, s => some s
  | Nat.succ n, t, s =>
    match seqNext s.ds (SeqSel.mk s.sel) with
    | Except.error _ => some s
    | Except.ok (v, sel2) =>
      match learnStep t T (rs t) s v sel2.idx with
      | none => none
      | some s2 => learnLoop T rs n (t + 1) s2

/-- Go ZeroValueWeightsInitializer.Init: make([]float64, Width) for every
neuron, i.e. all-zero weight vectors of the data set width; the Width panic
on an empty data set is modelled by none. -/
def zeroInitWeights (ds : DataSet) (grid : List (List Neuron)) :
    Option (List (List Neuron)) :=
  match ds.WidthP with
  | none => none
  | some w =>
    some (grid.map fun row => row.map fun n => { n with Weights := List.replicate w 0 })

/-- Go SOM.Learn with the default policies cited by the claims: the
zero-value weights Init step, then the sequential loop. -/
def SOM.Learn (som : SOM) (ds : DataSet) (T : Nat) (rs : Nat → Nat) :
    Option LState :=
  match zeroInitWeights ds som.Neurons with
  | none => none
  | some g => learnLoop T rs T 0 (LState.mk { som with Neurons := g } ds 0)

/-- Go RandSelector state: the current permutation of dataset indices and the
position in it. -/
structure RandSel where
  perm : List Nat
  idx : Nat
deriving DecidableEq

/-- Go RandSelector.Next: when the permutation is exhausted a fresh one is
taken (rand.Perm modelled by the oracle supply, whose head is consumed);
returns Vectors[perm[idx]] and advances.  It never returns an error. -/
def randNext (ds : DataSet) (supply : List (List Nat)) (s : RandSel) :
    DataVector × RandSel × List (List Nat) :=
  if s.idx = s.perm.length then
    let p := supply.headD []
    (ds.Vectors.getD (p.getD 0 0) [], RandSel.mk p 1, supply.tail)
  else
    (ds.Vectors.getD (s.perm.getD s.idx 0) [], RandSel.mk s.perm (s.idx + 1), supply)

/-- k consecutive calls of RandSelector.Next, collecting the returned
vectors. -/
def randRun (ds : DataSet) : List (List Nat) → RandSel → Nat →
    List DataVector × RandSel
  | _, s, 0 => ([], s)
  | supply, s, Nat.succ k =>
    let step := randNext ds supply s
    let rest := randRun ds step.2.2 step.2.1 k
    (step.1 :: rest.1, rest.2)

/-- Concrete engine with the default policies of som.New (zero weights,
sequential selector, no restraint, BMU-only influence, no-op adapter) over a
1 by 1 grid, with the Manhattan distance metric of the repository. -/
def somW : SOM :=
  { Neurons := [[neuron0]], Restraint := NoRestraint, Influence := BMUOnlyInfluence,
    Distance := manhattanDist, InDataAdapter := NoOpAdapter }

/-- Engine configured with the in-place min-max ScalingDataAdapter
(min = [0], max = [2]), used to exercise the adapter aliasing behaviour. -/
def somC3 : SOM :=
  { Neurons := [[{ Weights := [0], Distance := 0, X := 0, Y := 0 }]],
    Restraint := NoRestraint, Influence := BMUOnlyInfluence,
    Distance := manhattanDist, InDataAdapter := ScalingDataAdapter [0] [2] }

/-- Engine configured with the in-place min-max ScalingDataAdapter
(min = [0], max = [10]). -/
def somC4 : SOM :=
  { Neurons := [[neuron0]], Restraint := NoRestraint, Influence := BMUOnlyInfluence,
    Distance := manhattanDist, InDataAdapter := ScalingDataAdapter [0] [10] }

def dsC5 : DataSet := DataSet.mk [[0], [1]]

theorem idxMap_length {α β : Type _} (f : Nat → α → β) (i : Nat) (l : List α) :
    (idxMap f i l).length = l.length := by
  induction l generalizing i with
  | nil => rfl
  | cons a l ih => simp [idxMap, ih]

theorem idxMap_getD {α β : Type _} (f : Nat → α → β) (i j : Nat) (l : List α)
    (hj : j < l.length) (da : α) (db : β) :
    (idxMap f i l).getD j db = f (i + j) (l.getD j da) := by
  induction l generalizing i j with
  | nil => simp at hj
  | cons a l ih =>
    cases j with
    | zero => simp [idxMap]
    | succ j =>
      have hj' : j < l.length := by simpa using hj
      simp only [idxMap, List.getD_cons_succ]
      rw [ih (i + 1) j hj']
      congr 1
      omega

theorem natFloor_mul_div (i L n : Nat) :
    Nat.floor ((i : ℚ) * ((L : ℚ) / (n : ℚ))) = i * L / n := by
  have h : (i : ℚ) * ((L : ℚ) / (n : ℚ)) = ((i * L : ℕ) : ℚ) / (n : ℚ) := by
    push_cast
    ring
  rw [h, Nat.floor_div_eq_div]

/-- Claim C10: calling Learn with an empty dataset and the default zero-value
weights Init step panics (modelled by none) before any iteration runs, for
every iterationsNumber, because the dataset width query fails on an empty
dataset. -/
theorem learn_empty_panics (som : SOM) (T : Nat) (rs : Nat → Nat) :
    som.Learn (DataSet.mk []) T rs = none := rfl

/-- Claim C8: for a non-empty dataset of width w, Learn with zero iterations
performs no weight update: the resulting state is exactly the
post-zero-initialization state, in which every neuron weight vector is the
all-zero vector of length w. -/
theorem learn_zero_iterations (som : SOM) (ds : DataSet) (rs : Nat → Nat) (w : Nat)
    (hne : ds.Vectors ≠ []) (hw : (ds.Vectors.headD []).length = w) :
    ∃ g, zeroInitWeights ds som.Neurons = some g
      ∧ som.Learn ds 0 rs = some (LState.mk { som with Neurons := g } ds 0)
      ∧ ∀ row ∈ g, ∀ n ∈ row, n.Weights = List.replicate w 0 ∧ n.Weights.length = w := by
  obtain ⟨vs⟩ := ds
  cases vs with
  | nil => simp at hne
  | cons a l =>
    refine ⟨_, rfl, rfl, ?_⟩
    intro row hrow n hn
    simp only [List.mem_map] at hrow
    obtain ⟨row0, _, rfl⟩ := hrow
    simp only [List.mem_map] at hn
    obtain ⟨n0, _, rfl⟩ := hn
    have ha : a.length = w := hw
    subst ha
    exact ⟨rfl, by simp⟩

/-- Claim C9: Add fails with the dimension-mismatch panic exactly when the
dataset is non-empty and the new vector has a different length; otherwise it
appends the vector, and the uniform-width invariant is preserved. -/
theorem add_spec (ds : DataSet) (v : DataVector) (h : uniformWidth ds) :
    (ds.Vectors ≠ [] ∧ (ds.Vectors.headD []).length ≠ v.length →
       ds.Add v = Except.error dimensionMismatchMsg)
    ∧ (ds.Vectors = [] ∨ (ds.Vectors.headD []).length = v.length →
       ds.Add v = Except.ok (DataSet.mk (ds.Vectors ++ [v]))
       ∧ uniformWidth (DataSet.mk (ds.Vectors ++ [v]))) := by
  obtain ⟨vs⟩ := ds
  constructor
  · intro hc
    unfold DataSet.Add
    rw [if_pos]
    refine ⟨?_, hc.2⟩
    simpa using hc.1
  · intro hc
    cases vs with
    | nil =>
      refine ⟨by unfold DataSet.Add; rw [if_neg]; simp, ?_⟩
      intro x hx
      simp at hx
      simp [hx]
    | cons a l =>
      have hal : a.length = v.length := by
        rcases hc with hc | hc
        · simp at hc
        · exact hc
      constructor
      · unfold DataSet.Add
        rw [if_neg]
        intro hcon
        exact hcon.2 hal
      · intro x hx
        have hhead : ((a :: l ++ [v]).headD []) = a := rfl
        rw [hhead]
        rcases List.mem_append.mp hx with hx | hx
        · exact h x hx
        · rw [List.mem_singleton.mp hx, hal.symm]

/-- Claim C7: Reduce is the identity when the dataset length is at most the
target; otherwise it keeps, for each i, the vector at index
(left + right) >> 1 with left = floor(i * L / n) and right =
floor((i+1) * L / n); the 9-to-3 worked example keeps values 1, 4, 7. -/
theorem reduce_spec (ds : DataSet) (n : Nat) (i : Nat) (hi : i < n) :
    (ds.Len ≤ n → ds.Reduce n = ds)
    ∧ (n < ds.Len →
        (ds.Reduce n).Vectors.length = n
        ∧ (ds.Reduce n).Vectors.getD i [] =
            ds.Vectors.getD ((i * ds.Len / n + (i + 1) * ds.Len / n) >>> 1) [])
    ∧ (DataSet.mk ((List.range 9).map fun (k : Nat) => [(k : ℚ)])).Reduce 3 =
        DataSet.mk [[1], [4], [7]] := by
  refine ⟨?_, ?_, ?_⟩
  · intro h
    unfold DataSet.Reduce
    rw [if_neg (by omega)]
  · intro h
    unfold DataSet.Reduce
    rw [if_pos h]
    have hlen : ((List.range n).map fun (i : Nat) =>
        ds.Vectors.getD
          ((Nat.floor ((i : ℚ) * ((ds.Len : ℚ) / (n : ℚ)))
              + Nat.floor (((i : ℚ) + 1) * ((ds.Len : ℚ) / (n : ℚ)))) >>> 1) []).length = n := by
      rw [List.length_map, List.length_range]
    refine ⟨hlen, ?_⟩
    rw [List.getD_eq_getElem _ _ (by rw [hlen]; exact hi)]
    simp only [List.getElem_map, List.getElem_range]
    have h2 : ((i : ℚ) + 1) * ((ds.Len : ℚ) / (n : ℚ))
        = (((i + 1 : ℕ)) : ℚ) * ((ds.Len : ℚ) / (n : ℚ)) := by
      push_cast
      ring
    rw [h2, natFloor_mul_div, natFloor_mul_div]
  · unfold DataSet.Reduce
    norm_num [DataSet.Len, List.range_succ]
    decide

/-- Claim C6: the sequential selector returns the dataset vectors one per
call in stored order; once exhausted, every further Next call fails with the
NoDataLeft error; and the Learn loop, on receiving that signal, stops at once
without error, keeping the current state (weights included). -/
theorem seq_learn_early_stop (ds : DataSet) (i T : Nat) (rs : Nat → Nat)
    (n t : Nat) (s : LState) (hs : s.ds.Len ≤ s.sel) :
    (i < ds.Len →
       seqNext ds (SeqSel.mk i) = Except.ok (ds.Vectors.getD i [], SeqSel.mk (i + 1)))
    ∧ (ds.Len ≤ i → seqNext ds (SeqSel.mk i) = Except.error ErrNoDataLeft)
    ∧ learnLoop T rs n t s = some s := by
  refine ⟨?_, ?_, ?_⟩
  · intro h
    unfold seqNext
    rw [if_neg (show ¬ ds.Len ≤ i by omega)]
  · intro h
    unfold seqNext
    rw [if_pos h]
  · cases n with
    | zero => rfl
    | succ n =>
      unfold learnLoop
      rw [show seqNext s.ds (SeqSel.mk s.sel) = Except.error ErrNoDataLeft from by
        unfold seqNext; rw [if_pos hs]]

theorem fixWeights_row_getD (R : Nat → Nat → ℚ) (I : Neuron → Nat → Nat → Nat → Nat → ℚ)
    (t T : Nat) (bmu : Neuron) (input : DataVector) (grid : List (List Neuron))
    (i : Nat) (hi : i < grid.length) :
    (fixWeights R I t T bmu input grid).getD i []
      = idxMap (fun j n =>
          { n with Weights :=
              idxMap (fun k w => w + R t T * I bmu t T i j * (input.getD k 0 - w)) 0 n.Weights })
          0 (grid.getD i []) := by
  unfold fixWeights
  rw [idxMap_getD _ 0 i grid hi [] []]
  simp only [Nat.zero_add]

theorem fixWeights_getD (R : Nat → Nat → ℚ) (I : Neuron → Nat → Nat → Nat → Nat → ℚ)
    (t T : Nat) (bmu : Neuron) (input : DataVector) (grid : List (List Neuron))
    (i j : Nat) (hi : i < grid.length) (hj : j < (grid.getD i []).length) :
    ((fixWeights R I t T bmu input grid).getD i []).getD j neuron0
      = { (grid.getD i []).getD j neuron0 with
          Weights :=
            idxMap (fun k w => w + R t T * I bmu t T i j * (input.getD k 0 - w)) 0
              ((grid.getD i []).getD j neuron0).Weights } := by
  rw [fixWeights_row_getD R I t T bmu input grid i hi]
  rw [idxMap_getD _ 0 j (grid.getD i []) hj neuron0 neuron0]
  simp only [Nat.zero_add]

/-- Claim C1: in every Learn iteration that obtains a vector, after the BMU is
found the weight update is exactly
w_k plus restraint(t, T) * influence(bmu, t, T, i, j) * (input_k - w_k) for
every neuron (i, j) and coordinate k, with input the adapted vector of the
iteration, and nothing else about a neuron or the grid shape changes. -/
theorem fixWeights_spec (R : Nat → Nat → ℚ) (I : Neuron → Nat → Nat → Nat → Nat → ℚ)
    (t T : Nat) (bmu : Neuron) (input : DataVector) (grid : List (List Neuron))
    (i j k : Nat)
    (hi : i < grid.length) (hj : j < (grid.getD i []).length)
    (hk : k < ((grid.getD i []).getD j neuron0).Weights.length) :
    (((fixWeights R I t T bmu input grid).getD i []).getD j neuron0).Weights.getD k 0
      = ((grid.getD i []).getD j neuron0).Weights.getD k 0
        + R t T * I bmu t T i j
          * (input.getD k 0 - ((grid.getD i []).getD j neuron0).Weights.getD k 0)
    ∧ (((fixWeights R I t T bmu input grid).getD i []).getD j neuron0).Distance
        = ((grid.getD i []).getD j neuron0).Distance
    ∧ (((fixWeights R I t T bmu input grid).getD i []).getD j neuron0).X
        = ((grid.getD i []).getD j neuron0).X
    ∧ (((fixWeights R I t T bmu input grid).getD i []).getD j neuron0).Y
        = ((grid.getD i []).getD j neuron0).Y
    ∧ (((fixWeights R I t T bmu input grid).getD i []).getD j neuron0).Weights.length
        = ((grid.getD i []).getD j neuron0).Weights.length
    ∧ (fixWeights R I t T bmu input grid).length = grid.length
    ∧ ((fixWeights R I t T bmu input grid).getD i []).length = (grid.getD i []).length
    ∧ (∀ (r : Nat) (s : LState) (v : DataVector) (si : Nat) (s2 : LState),
        learnStep t T r s v si = some s2 →
        ∃ bmu2,
          findBMU (computeDistance s.som.Distance (s.som.InDataAdapter.adapt v) s.som.Neurons) r
            = some bmu2
          ∧ s2.som.Neurons
            = fixWeights s.som.Restraint s.som.Influence t T bmu2
                (s.som.InDataAdapter.adapt v)
                (computeDistance s.som.Distance (s.som.InDataAdapter.adapt v) s.som.Neurons)) := by
  rw [fixWeights_getD R I t T bmu input grid i j hi hj]
  refine ⟨?_, rfl, rfl, rfl, ?_, ?_, ?_, ?_⟩
  · show (idxMap _ 0 ((grid.getD i []).getD j neuron0).Weights).getD k 0 = _
    rw [idxMap_getD _ 0 k ((grid.getD i []).getD j neuron0).Weights hk 0 0]
    simp only [Nat.zero_add]
  · show (idxMap _ 0 ((grid.getD i []).getD j neuron0).Weights).length = _
    rw [idxMap_length]
  · unfold fixWeights
    rw [idxMap_length]
  · rw [fixWeights_row_getD R I t T bmu input grid i hi, idxMap_length]
  · intro r s v si s2 h
    simp only [learnStep] at h
    split at h
    · exact absurd h (by simp)
    · rename_i bmu2 hfb
      refine ⟨bmu2, hfb, ?_⟩
      rw [← Option.some.inj h]

theorem fixWeights_spec_witness :
    (((fixWeights NoRestraint BMUOnlyInfluence 0 1 neuron0 [4]
          [[{ Weights := [2], Distance := 0, X := 0, Y := 0 }]]).getD 0 []).getD 0
        neuron0).Weights.getD 0 0
      = ((([[{ Weights := [2], Distance := 0, X := 0, Y := 0 }]] :
            List (List Neuron)).getD 0 []).getD 0 neuron0).Weights.getD 0 0
        + NoRestraint 0 1 * BMUOnlyInfluence neuron0 0 1 0 0
          * (([4] : DataVector).getD 0 0
             - ((([[{ Weights := [2], Distance := 0, X := 0, Y := 0 }]] :
                   List (List Neuron)).getD 0 []).getD 0 neuron0).Weights.getD 0 0) :=
  (fixWeights_spec NoRestraint BMUOnlyInfluence 0 1 neuron0 [4]
    [[{ Weights := [2], Distance := 0, X := 0, Y := 0 }]] 0 0 0
    (by decide) (by decide) (by decide)).1

theorem learn_zero_iterations_witness :
    ∃ g, zeroInitWeights (DataSet.mk [[1], [2]]) somW.Neurons = some g
      ∧ somW.Learn (DataSet.mk [[1], [2]]) 0 (fun _ => 0)
          = some (LState.mk { somW with Neurons := g } (DataSet.mk [[1], [2]]) 0)
      ∧ ∀ row ∈ g, ∀ n ∈ row, n.Weights = List.replicate 1 0 ∧ n.Weights.length = 1 :=
  learn_zero_iterations somW (DataSet.mk [[1], [2]]) (fun _ => 0) 1
    (by decide) (by decide)

theorem add_spec_witness :
    (DataSet.mk [[1]]).Add [2, 3] = Except.error dimensionMismatchMsg :=
  (add_spec (DataSet.mk [[1]]) [2, 3] (by unfold uniformWidth; decide)).1 (by decide)

theorem reduce_spec_witness :
    (DataSet.mk ((List.range 9).map fun (k : Nat) => [(k : ℚ)])).Reduce 3
      = DataSet.mk [[1], [4], [7]] :=
  (reduce_spec (DataSet.mk ((List.range 9).map fun (k : Nat) => [(k : ℚ)])) 3 0
    (by decide)).2.2

theorem seq_learn_early_stop_witness :
    learnLoop 5 (fun _ => 0) 2 0 (LState.mk somW (DataSet.mk []) 0)
      = some (LState.mk somW (DataSet.mk []) 0) :=
  (seq_learn_early_stop (DataSet.mk [[1]]) 1 5 (fun _ => 0) 2 0
    (LState.mk somW (DataSet.mk []) 0) (by decide)).2.2

/-- Claim C3 (amended): ComputeDistanceMatrix never touches the receiver (in
particular no neuron working Distance changes), and when the input adapter
does not write the adapted values back through the caller slice (inPlace
false, as the default no-op adapter), the matrix returned by
ComputeDistanceMatrix on the caller vector right after a Test call on the
same vector equals, entry for entry, the grid of neuron Distance fields that
the Test call produced. -/
theorem cdm_matches_test (som : SOM) (v : DataVector) (r : Nat)
    (h : som.InDataAdapter.inPlace = false) :
    ((som.Test v r).1.ComputeDistanceMatrix (som.Test v r).2.1).2.2
      = (som.Test v r).1.Neurons.map (List.map Neuron.Distance)
    ∧ ∀ (som2 : SOM) (v2 : DataVector), (som2.ComputeDistanceMatrix v2).1 = som2 := by
  refine ⟨?_, fun som2 v2 => rfl⟩
  simp only [SOM.Test, SOM.ComputeDistanceMatrix, computeDistance, h, Bool.false_eq_true,
    if_false]
  simp [List.map_map, Function.comp]

theorem cdm_matches_test_witness :
    ((somW.Test [3] 0).1.ComputeDistanceMatrix (somW.Test [3] 0).2.1).2.2
      = (somW.Test [3] 0).1.Neurons.map (List.map Neuron.Distance) :=
  (cdm_matches_test somW [3] 0 rfl).1

/-- Counterexample to claim C3 as stated: with the in-place min-max scaling
adapter the Test call rescales the caller vector, so the immediately
following ComputeDistanceMatrix call on the same vector adapts it a second
time and returns a matrix different from the stored Distance grid. -/
theorem cdm_test_counterexample :
    ((somC3.Test [1] 0).1.ComputeDistanceMatrix (somC3.Test [1] 0).2.1).2.2
      ≠ (somC3.Test [1] 0).1.Neurons.map (List.map Neuron.Distance) := by
  have h4 : |(1 : ℚ) / 4| = 1 / 4 := abs_of_nonneg (by norm_num)
  have h2 : |(1 : ℚ) / 2| = 1 / 2 := abs_of_nonneg (by norm_num)
  norm_num [somC3, SOM.Test, SOM.ComputeDistanceMatrix, computeDistance, findBMU,
    bmuStep, ScalingDataAdapter, manhattanDist, idxMap, h4, h2]

theorem learnStep_frame (t T r : Nat) (s : LState) (v : DataVector) (si : Nat)
    (s2 : LState) (h : learnStep t T r s v si = some s2) :
    s2.som.InDataAdapter = s.som.InDataAdapter
    ∧ (s.som.InDataAdapter.inPlace = false → s2.ds = s.ds) := by
  simp only [learnStep] at h
  split at h
  · exact absurd h (by simp)
  · obtain rfl := Option.some.inj h
    refine ⟨rfl, fun hp => ?_⟩
    show (if s.som.InDataAdapter.inPlace
          then DataSet.mk (s.ds.Vectors.set s.sel (s.som.InDataAdapter.adapt v))
          else s.ds) = s.ds
    rw [hp]
    simp

theorem learnLoop_ds_frame (T : Nat) (rs : Nat → Nat) :
    ∀ (n t : Nat) (s s2 : LState), s.som.InDataAdapter.inPlace = false →
      learnLoop T rs n t s = some s2 → s2.ds = s.ds := by
  intro n
  induction n with
  | zero =>
    intro t s s2 _ h
    simp only [learnLoop] at h
    obtain rfl := Option.some.inj h
    rfl
  | succ n ih =>
    intro t s s2 hp h
    simp only [learnLoop] at h
    split at h
    · obtain rfl := Option.some.inj h
      rfl
    · rename_i v sel2 hse
      split at h
      · exact absurd h (by simp)
      · rename_i s3 hst
        have hf := learnStep_frame t T (rs t) s v sel2.idx s3 hst
        have hp3 : s3.som.InDataAdapter.inPlace = false := by rw [hf.1]; exact hp
        rw [ih (t + 1) s3 s2 hp3 h, hf.2 hp]

/-- Claim C4 (amended): with the sequential selector of the embedded loop and
an input adapter that does not write through its argument slice (inPlace
false, as the default no-op adapter), Learn never mutates the dataset passed
to it, whatever the other policies do. -/
theorem learn_dataset_frame (som : SOM) (ds : DataSet) (T : Nat) (rs : Nat → Nat)
    (s2 : LState) (hp : som.InDataAdapter.inPlace = false)
    (h : som.Learn ds T rs = some s2) : s2.ds = ds := by
  simp only [SOM.Learn] at h
  split at h
  · exact absurd h (by simp)
  · rename_i g hg
    exact learnLoop_ds_frame T rs T 0 (LState.mk { som with Neurons := g } ds 0) s2 hp h

theorem learn_dataset_frame_witness :
    ∃ s2, somW.Learn (DataSet.mk [[1]]) 0 (fun _ => 0) = some s2
      ∧ s2.ds = DataSet.mk [[1]] :=
  ⟨_, rfl, learn_dataset_frame somW (DataSet.mk [[1]]) 0 (fun _ => 0) _ rfl rfl⟩

/-- Counterexample to claim C4 as stated: with the in-place min-max scaling
adapter (min = [0], max = [10]) and the sequential selector, one Learn
iteration over the dataset [[5]] rescales the selected vector through the
alias, leaving the caller dataset holding [[1/2]] instead of [[5]]. -/
theorem learn_mutates_dataset_counterexample :
    (somC4.Learn (DataSet.mk [[5]]) 1 (fun _ => 0)).map (fun s => s.ds.Vectors)
      = some [[(1 : ℚ) / 2]]
    ∧ ([[(1 : ℚ) / 2]] : List DataVector) ≠ [[(5 : ℚ)]] := by
  constructor
  · norm_num [somC4, SOM.Learn, zeroInitWeights, DataSet.WidthP, learnLoop, learnStep,
      seqNext, DataSet.Len, computeDistance, findBMU, bmuStep, fixWeights, idxMap,
      ScalingDataAdapter, manhattanDist, NoRestraint, BMUOnlyInfluence]
  · norm_num

theorem map_getD_range {α : Type _} (l : List α) (d : α) :
    ((List.range l.length).map fun a => l.getD a d) = l := by
  apply List.ext_getElem
  · simp
  · intro i h1 h2
    simp only [List.getElem_map, List.getElem_range]
    exact List.getD_eq_getElem l d h2

theorem randRun_aligned (ds : DataSet) :
    ∀ (k : Nat) (supply : List (List Nat)) (p : List Nat) (idx : Nat),
      idx + k ≤ p.length →
      (randRun ds supply (RandSel.mk p idx) k).1
        = ((p.drop idx).take k).map fun a => ds.Vectors.getD a [] := by
  intro k
  induction k with
  | zero =>
    intro supply p idx h
    simp [randRun]
  | succ k ih =>
    intro supply p idx h
    have hidx : idx < p.length := by omega
    have hne : ¬ idx = p.length := by omega
    simp only [randRun, randNext, if_neg hne]
    rw [ih supply p (idx + 1) (by omega)]
    rw [List.drop_eq_getElem_cons hidx, List.take_succ_cons]
    rw [List.map_cons]
    rw [List.getD_eq_getElem p 0 hidx]

/-- Claim C5 (amended): the random selector never fails, and across a run of
N = dataset-size consecutive Next calls that starts at a cycle boundary
(immediately after Init, whose rand.Perm outcome is the permutation p of the
index range), the returned vectors are exactly the dataset vectors, each
index selected exactly once (the output list is a permutation of the
dataset). -/
theorem randSelector_cycle (ds : DataSet) (p : List Nat) (supply : List (List Nat))
    (hp : p.Perm (List.range ds.Len)) :
    (randRun ds supply (RandSel.mk p 0) ds.Len).1.Perm ds.Vectors
    ∧ ∀ v ∈ (randRun ds supply (RandSel.mk p 0) ds.Len).1, v ∈ ds.Vectors := by
  have hlen : p.length = ds.Len := by simpa using hp.length_eq
  have hout : (randRun ds supply (RandSel.mk p 0) ds.Len).1
      = p.map fun a => ds.Vectors.getD a [] := by
    have h := randRun_aligned ds ds.Len supply p 0 (by omega)
    rw [h, List.drop_zero, ← hlen, List.take_length]
  have hperm : (randRun ds supply (RandSel.mk p 0) ds.Len).1.Perm ds.Vectors := by
    rw [hout]
    have h2 := hp.map fun a => ds.Vectors.getD a []
    have h3 : ((List.range ds.Len).map fun a => ds.Vectors.getD a []) = ds.Vectors :=
      map_getD_range ds.Vectors []
    rw [h3] at h2
    exact h2
  exact ⟨hperm, fun v hv => hperm.subset hv⟩

theorem randSelector_cycle_witness :
    (randRun dsC5 [] (RandSel.mk [1, 0] 0) dsC5.Len).1.Perm dsC5.Vectors
    ∧ ∀ v ∈ (randRun dsC5 [] (RandSel.mk [1, 0] 0) dsC5.Len).1, v ∈ dsC5.Vectors :=
  randSelector_cycle dsC5 [1, 0] [] (by decide)

/-- Counterexample to claim C5 as stated: with the dataset [[0], [1]], first
permutation [0, 1] and regenerated permutation [1, 0] (both genuine outcomes
of rand.Perm 2), the run of N = 2 consecutive Next calls that starts after
one call returns [1] twice and never returns [0], so not every dataset
vector is returned exactly once in that misaligned window. -/
theorem randSelector_misaligned_counterexample :
    ((randRun dsC5 [[1, 0]] (RandSel.mk [0, 1] 0) 3).1.drop 1).countP
        (fun v => decide (v = [(0 : ℚ)])) = 0
    ∧ [(0 : ℚ)] ∈ dsC5.Vectors
    ∧ ((randRun dsC5 [[1, 0]] (RandSel.mk [0, 1] 0) 3).1.drop 1).length = dsC5.Len
    ∧ ([0, 1] : List Nat).Perm (List.range dsC5.Len)
    ∧ ([1, 0] : List Nat).Perm (List.range dsC5.Len) := by
  refine ⟨?_, ?_, ?_, by decide, by decide⟩ <;>
    simp [randRun, randNext, dsC5, DataSet.Len]

theorem listMin_cons (m a : ℚ) (l : List ℚ) :
    listMin m (a :: l) = listMin (min m a) l := rfl

theorem listMin_le_init (m : ℚ) (l : List ℚ) : listMin m l ≤ m := by
  induction l generalizing m with
  | nil => exact le_refl m
  | cons a l ih => exact le_trans (ih (min m a)) (min_le_left m a)

theorem listMin_le_mem (m : ℚ) (l : List ℚ) : ∀ x ∈ l, listMin m l ≤ x := by
  induction l generalizing m with
  | nil => intro x hx; simp at hx
  | cons a l ih =>
    intro x hx
    rcases List.mem_cons.mp hx with h | h
    · subst h
      rw [listMin_cons]
      exact le_trans (listMin_le_init (min m x) l) (min_le_right m x)
    · exact ih (min m a) x h

theorem bmuFold_inv (l : List Neuron) :
    ∀ (b : Neuron) (m : ℚ) (c : Nat), b.Distance = m →
      (l.foldl bmuStep (b, m, c)).1.Distance = (l.foldl bmuStep (b, m, c)).2.1
      ∧ ((l.foldl bmuStep (b, m, c)).1 = b ∨ (l.foldl bmuStep (b, m, c)).1 ∈ l)
      ∧ (l.foldl bmuStep (b, m, c)).2.1 = listMin m (l.map Neuron.Distance)
      ∧ ((l.foldl bmuStep (b, m, c)).2.2 =
          if (l.foldl bmuStep (b, m, c)).2.1 < m
          then l.countP (fun n => decide (n.Distance = (l.foldl bmuStep (b, m, c)).2.1))
          else c + l.countP (fun n => decide (n.Distance = m))) := by
  induction l with
  | nil =>
    intro b m c hb
    refine ⟨hb, Or.inl rfl, rfl, ?_⟩
    simp [listMin, lt_irrefl]
  | cons x xs ih =>
    intro b m c hb
    rw [List.foldl_cons]
    by_cases h1 : m > x.Distance
    · have hstep : bmuStep (b, m, c) x = (x, x.Distance, 1) := by
        unfold bmuStep
        rw [if_pos h1]
      rw [hstep]
      obtain ⟨i1, i2, i3, i4⟩ := ih x x.Distance 1 rfl
      refine ⟨i1, ?_, ?_, ?_⟩
      · rcases i2 with h | h
        · exact Or.inr (by rw [h]; exact List.mem_cons_self x xs)
        · exact Or.inr (List.mem_cons_of_mem x h)
      · rw [List.map_cons, listMin_cons, min_eq_right (le_of_lt h1)]
        exact i3
      · have hle : (xs.foldl bmuStep (x, x.Distance, 1)).2.1 ≤ x.Distance := by
          rw [i3]; exact listMin_le_init _ _
        have hltm : (xs.foldl bmuStep (x, x.Distance, 1)).2.1 < m := lt_of_le_of_lt hle h1
        rw [if_pos hltm, List.countP_cons]
        by_cases h2 : (xs.foldl bmuStep (x, x.Distance, 1)).2.1 < x.Distance
        · rw [i4, if_pos h2]
          have hne : x.Distance ≠ (xs.foldl bmuStep (x, x.Distance, 1)).2.1 := ne_of_gt h2
          simp [hne]
        · have heq : (xs.foldl bmuStep (x, x.Distance, 1)).2.1 = x.Distance :=
            le_antisymm hle (not_lt.mp h2)
          rw [i4, if_neg h2, heq]
          simp
          omega
    · by_cases h2 : m = x.Distance
      · have hstep : bmuStep (b, m, c) x = (b, m, c + 1) := by
          unfold bmuStep
          rw [if_neg h1, if_pos h2]
        rw [hstep]
        obtain ⟨i1, i2, i3, i4⟩ := ih b m (c + 1) hb
        refine ⟨i1, ?_, ?_, ?_⟩
        · rcases i2 with h | h
          · exact Or.inl h
          · exact Or.inr (List.mem_cons_of_mem x h)
        · rw [List.map_cons, listMin_cons, ← h2, min_self]
          exact i3
        · by_cases h3 : (xs.foldl bmuStep (b, m, c + 1)).2.1 < m
          · rw [if_pos h3, List.countP_cons, i4, if_pos h3]
            have hne : x.Distance ≠ (xs.foldl bmuStep (b, m, c + 1)).2.1 := by
              rw [← h2]; exact ne_of_gt h3
            simp [hne]
          · rw [if_neg h3, List.countP_cons, i4, if_neg h3]
            simp [h2.symm]
            omega
      · have h3 : m < x.Distance := lt_of_le_of_ne (not_lt.mp h1) h2
        have hstep : bmuStep (b, m, c) x = (b, m, c) := by
          unfold bmuStep
          rw [if_neg h1, if_neg h2]
        rw [hstep]
        obtain ⟨i1, i2, i3, i4⟩ := ih b m c hb
        refine ⟨i1, ?_, ?_, ?_⟩
        · rcases i2 with h | h
          · exact Or.inl h
          · exact Or.inr (List.mem_cons_of_mem x h)
        · rw [List.map_cons, listMin_cons, min_eq_left (le_of_lt h3)]
          exact i3
        · have hub : (xs.foldl bmuStep (b, m, c)).2.1 ≤ m := by
            rw [i3]; exact listMin_le_init _ _
          by_cases h4 : (xs.foldl bmuStep (b, m, c)).2.1 < m
          · rw [if_pos h4, List.countP_cons, i4, if_pos h4]
            have hne : x.Distance ≠ (xs.foldl bmuStep (b, m, c)).2.1 :=
              ne_of_gt (lt_of_le_of_lt hub h3)
            simp [hne]
          · rw [if_neg h4, List.countP_cons, i4, if_neg h4]
            have hne : x.Distance ≠ m := ne_of_gt h3
            simp [hne]

/-- Claim C2: for every grid with a first neuron, findBMU returns a neuron
whose stored Distance is the minimum stored Distance over all neurons of the
grid; when exactly one neuron attains that minimum the same neuron is
returned for every random draw; and when at least two neurons tie, the
result is the (r mod L)-th element of the full row-major list of the L tying
neurons, so a uniform draw of r over [0, L) picks uniformly among exactly
the tying neurons. -/
theorem findBMU_spec (grid : List (List Neuron)) (n00 : Neuron) (row0 : List Neuron)
    (rows : List (List Neuron)) (hg : grid = (n00 :: row0) :: rows) (r : Nat) :
    ∃ b, findBMU grid r = some b
      ∧ b ∈ grid.flatten
      ∧ (∀ n ∈ grid.flatten, b.Distance ≤ n.Distance)
      ∧ (grid.flatten.countP (fun n => decide (n.Distance = b.Distance)) = 1 →
          ∀ r2, findBMU grid r2 = some b)
      ∧ (∀ cands, cands = grid.flatten.filter (fun n => decide (b.Distance = n.Distance)) →
          2 ≤ cands.length →
          ∀ r2, findBMU grid r2 = some (cands.getD (r2 % cands.length) n00)) := by
  subst hg
  have hall : ((n00 :: row0) :: rows).flatten = n00 :: (row0 ++ rows.flatten) := by
    rw [List.flatten_cons, List.cons_append]
  have hstep0 : bmuStep (n00, n00.Distance, 1) n00 = (n00, n00.Distance, 2) := by
    unfold bmuStep
    rw [if_neg (lt_irrefl _), if_pos rfl]
  set tail := row0 ++ rows.flatten with htail
  set res := tail.foldl bmuStep (n00, n00.Distance, 2) with hres
  have hfold : (((n00 :: row0) :: rows).flatten).foldl bmuStep (n00, n00.Distance, 1) = res := by
    rw [hall, List.foldl_cons, hstep0]
  have hred : ∀ r2 : Nat, findBMU ((n00 :: row0) :: rows) r2 =
      if res.2.2 = 1 then some res.1
      else some (((((n00 :: row0) :: rows).flatten).filter fun n =>
            decide (res.2.1 = n.Distance)).getD
          (r2 % ((((n00 :: row0) :: rows).flatten).filter fun n =>
            decide (res.2.1 = n.Distance)).length) n00) := by
    intro r2
    show (let all := ((n00 :: row0) :: rows).flatten
          let acc := all.foldl bmuStep (n00, n00.Distance, 1)
          if acc.2.2 = 1 then some acc.1
          else
            let cands := all.filter fun n => decide (acc.2.1 = n.Distance)
            some (cands.getD (r2 % cands.length) n00)) = _
    simp only [hfold]
  obtain ⟨i1, i2, i3, i4⟩ := bmuFold_inv tail n00 n00.Distance 2 rfl
  rw [← hres] at i1 i2 i3 i4
  have hmem : res.1 ∈ n00 :: tail := by
    rcases i2 with h | h
    · rw [h]; exact List.mem_cons_self n00 tail
    · exact List.mem_cons_of_mem n00 h
  have hminle : ∀ n ∈ n00 :: tail, res.2.1 ≤ n.Distance := by
    intro n hn
    rcases List.mem_cons.mp hn with h | h
    · subst h
      rw [i3]
      exact listMin_le_init _ _
    · rw [i3]
      exact listMin_le_mem _ _ n.Distance (List.mem_map_of_mem Neuron.Distance h)
  by_cases hc : res.2.2 = 1
  · have hcount1 : (n00 :: tail).countP (fun n => decide (n.Distance = res.2.1)) = 1 := by
      rw [i4] at hc
      rw [List.countP_cons]
      by_cases hlt : res.2.1 < n00.Distance
      · rw [if_pos hlt] at hc
        have hne : n00.Distance ≠ res.2.1 := ne_of_gt hlt
        simp [hne, hc]
      · rw [if_neg hlt] at hc
        omega
    refine ⟨res.1, ?_, ?_, ?_, ?_, ?_⟩
    · rw [hred r, if_pos hc]
    · rw [hall]; exact hmem
    · rw [hall]; intro n hn; rw [i1]; exact hminle n hn
    · intro _ r2
      rw [hred r2, if_pos hc]
    · intro cands hcdef hclen r2
      exfalso
      have hlen2 : cands.length
          = (n00 :: tail).countP (fun n => decide (n.Distance = res.2.1)) := by
        rw [hcdef, hall, ← List.countP_eq_length_filter]
        exact List.countP_congr (fun a _ => by simp [i1, eq_comm])
      omega
  · set cands0 := (n00 :: tail).filter (fun n => decide (res.2.1 = n.Distance)) with hcands0
    have hbc : res.1 ∈ cands0 := List.mem_filter.mpr ⟨hmem, by simp [i1]⟩
    have hL : 0 < cands0.length := List.length_pos_of_mem hbc
    have hgd : cands0.getD (r % cands0.length) n00 ∈ cands0 := by
      rw [List.getD_eq_getElem cands0 n00 (Nat.mod_lt r hL)]
      exact List.getElem_mem (Nat.mod_lt r hL)
    have hbd : (cands0.getD (r % cands0.length) n00).Distance = res.2.1 := by
      have h := (List.mem_filter.mp hgd).2
      simp only [decide_eq_true_eq] at h
      exact h.symm
    refine ⟨cands0.getD (r % cands0.length) n00, ?_, ?_, ?_, ?_, ?_⟩
    · rw [hred r, if_neg hc, hall, ← hcands0]
    · rw [hall]
      exact List.mem_of_mem_filter hgd
    · rw [hall]
      intro n hn
      rw [hbd]
      exact hminle n hn
    · intro hcount r2
      rw [hall, hbd] at hcount
      have hlen1 : cands0.length = 1 := by
        rw [hcands0, ← List.countP_eq_length_filter, ← hcount]
        exact List.countP_congr (fun a _ => by simp [eq_comm])
      obtain ⟨u, hu⟩ := List.length_eq_one.mp hlen1
      rw [hred r2, if_neg hc, hall, ← hcands0, hu]
      simp [Nat.mod_one]
    · intro cands hcdef hclen r2
      have hceq : cands = cands0 := by
        rw [hcdef, hall]
        simp only [hbd]
      rw [hred r2, if_neg hc, hall, ← hcands0, hceq]

theorem findBMU_spec_witness :
    ∃ b, findBMU [[neuron0]] 0 = some b
      ∧ b ∈ ([[neuron0]] : List (List Neuron)).flatten
      ∧ (∀ n ∈ ([[neuron0]] : List (List Neuron)).flatten, b.Distance ≤ n.Distance)
      ∧ (([[neuron0]] : List (List Neuron)).flatten.countP
            (fun n => decide (n.Distance = b.Distance)) = 1 →
          ∀ r2, findBMU [[neuron0]] r2 = some b)
      ∧ (∀ cands, cands = ([[neuron0]] : List (List Neuron)).flatten.filter
            (fun n => decide (b.Distance = n.Distance)) →
          2 ≤ cands.length →
          ∀ r2, findBMU [[neuron0]] r2 = some (cands.getD (r2 % cands.length) neuron0)) :=
  findBMU_spec [[neuron0]] neuron0 [] [] rfl 0
